import Mathlib

/-
  Verification development for the EuMech Turtle ASCII viewer
  (src/eumech_turtle_ascii.py).

  The Python module is shallowly embedded below: JSON records become the
  `RawState` structure (optional fields become `Option`), the three accepted
  document shapes become the `TraceDoc` inductive, fallible loading becomes
  `Except String`, Python floats become exact rationals, and the rendering
  loop `ascii_run` becomes a pure function returning the final trail mask
  together with the list of frames handed to the render sink (`draw_frame`
  calls).  Terminal I/O (`shutil.get_terminal_size`, `print`, `time.sleep`)
  is outside the model: surface `width`/`height` are parameters, and the
  frame delay has no observable effect on the data handed to the sink.
-/

set_option maxHeartbeats 1000000

namespace EuMechTurtle

/-- One trace record (a JSON object).  Python represents it as a dict; the
two fields this module ever reads are `step` and `coords`, either of which
may be absent.  Numeric values are modelled as exact rationals. -/
structure RawState where
  step : Option ℤ
  coords : Option (List ℚ)

/-- The shape of an already-deserialized JSON document, as discriminated by
the `if`/`elif` chain of `load_trace` (lines 58-103): a mapping with a
`states` key, a mapping with a `triangles` key, a bare list, or anything
else (which `load_trace` rejects). -/
inductive TraceDoc where
  | statesDoc (records : List RawState)
  | trianglesDoc (records : List RawState)
  | listDoc (records : List RawState)
  | otherDoc

/-- The derived state built from one triangle record by lines 81-88: the
first six coordinate values `x1,y1,x2,y2,x3,y3` give coords
`[(x1+x2+x3)/3, (y1+y2+y3)/3]` and the step is `tri.get("step", idx)`. -/
def deriveState (idx : ℕ) (tri : RawState) : RawState :=
  let coords := tri.coords.getD []
  { step := some (tri.step.getD (idx : ℤ)),
    coords := some
      [(coords.getD 0 0 + coords.getD 2 0 + coords.getD 4 0) / 3,
       (coords.getD 1 0 + coords.getD 3 0 + coords.getD 5 0) / 3] }

/-- Reduction of one triangle record, embedding lines 70-88 of
`load_trace`: a missing `coords` field or fewer than six values is an
error; otherwise the centroid state is derived. -/
def centroidState (idx : ℕ) (tri : RawState) : Except String RawState :=
  match tri.coords with
  | none => Except.error "Triangle missing coords."
  | some coords =>
    if coords.length < 6 then
      Except.error "Triangle has invalid coords - expected at least 6 numbers."
    else
      Except.ok (deriveState idx tri)

/-- The list of derived centroid states, one per triangle record, starting
at ordinal `idx`: the successful outcome of the loop of lines 70-88. -/
def deriveAll : ℕ → List RawState → List RawState
  | _, [] => []
  | idx, tri :: rest => deriveState idx tri :: deriveAll (idx + 1) rest

/-- The `for idx, tri in enumerate(triangles)` loop of lines 70-88, carrying
the running ordinal `idx`. -/
def reduceTriangles (idx : ℕ) : List RawState → Except String (List RawState)
  | [] => Except.ok []
  | tri :: rest => do
    let s ← centroidState idx tri
    let others ← reduceTriangles (idx + 1) rest
    Except.ok (s :: others)

/-- Shape resolution: the `if`/`elif` chain of lines 58-103. -/
def resolveShape (d : TraceDoc) : Except String (List RawState) :=
  match d with
  | TraceDoc.statesDoc l => Except.ok l
  | TraceDoc.trianglesDoc l => reduceTriangles 0 l
  | TraceDoc.listDoc l => Except.ok l
  | TraceDoc.otherDoc => Except.error "Unrecognized trace format."

/-- Per-record validation, lines 108-115: every record must carry a
`coords` list with at least two values; records are appended unchanged. -/
def validateStates (idx : ℕ) : List RawState → Except String (List RawState)
  | [] => Except.ok []
  | s :: rest =>
    match s.coords with
    | none => Except.error "State missing coords."
    | some coords =>
      if coords.length < 2 then
        Except.error "State coords must contain at least x and y."
      else do
        let others ← validateStates (idx + 1) rest
        Except.ok (s :: others)

/-- The full loader `load_trace` (lines 37-120), after JSON deserialization:
resolve the document shape, validate every record, and reject an empty
result. -/
def load_trace (d : TraceDoc) : Except String (List RawState) := do
  let states ← resolveShape d
  let cleaned ← validateStates 0 states
  if cleaned.isEmpty then Except.error "Trace produced no usable states."
  else Except.ok cleaned

/-- Decidable form of the per-record check of lines 110-114: the record has
a `coords` list of length at least 2. -/
def stateOK (s : RawState) : Bool :=
  match s.coords with
  | none => false
  | some coords => 2 ≤ coords.length

/-- Decidable form of the per-triangle check of lines 71-78: the record has
a `coords` list of length at least 6. -/
def triOK (t : RawState) : Bool :=
  match t.coords with
  | none => false
  | some coords => 6 ≤ coords.length

/-- World bounds `(min_x, max_x, min_y, max_y)` as returned by
`compute_bounds` (line 132). -/
structure Bounds where
  min_x : ℚ
  max_x : ℚ
  min_y : ℚ
  max_y : ℚ

/-- Python `min` over a nonempty list (the empty case, where Python raises,
is given the junk value 0; every use below is on a nonempty list). -/
def listMin : List ℚ → ℚ
  | [] => 0
  | x :: xs => xs.foldl min x

/-- Python `max` over a nonempty list, same convention as `listMin`. -/
def listMax : List ℚ → ℚ
  | [] => 0
  | x :: xs => xs.foldl max x

/-- The expression `s["coords"][0]` of lines 130 and 211.  The loader
guarantees a present `coords` list of length at least 2, so the defaults
are never reached on loaded traces. -/
def coordX (s : RawState) : ℚ := (s.coords.getD []).getD 0 0

/-- The expression `s["coords"][1]` of lines 131 and 212. -/
def coordY (s : RawState) : ℚ := (s.coords.getD []).getD 1 0

/-- The list `xs` of scaled first components built by `compute_bounds`. -/
def scaledXs (states : List RawState) (scale : ℚ) : List ℚ :=
  states.map (fun s => coordX s * scale)

/-- The list `ys` of scaled second components built by `compute_bounds`. -/
def scaledYs (states : List RawState) (scale : ℚ) : List ℚ :=
  states.map (fun s => coordY s * scale)

/-- The bounds calculator `compute_bounds` (lines 126-132): per-axis min
and max of the scaled first two coordinate components over the whole
trace. -/
def compute_bounds (states : List RawState) (scale : ℚ) : Bounds :=
  { min_x := listMin (scaledXs states scale),
    max_x := listMax (scaledXs states scale),
    min_y := listMin (scaledYs states scale),
    max_y := listMax (scaledYs states scale) }

/-- The degenerate-axis widening performed at the top of `project_point`
(lines 144-147): an axis whose max equals its min has its max replaced by
min + 1. -/
def widen_bounds (b : Bounds) : Bounds :=
  { b with
    max_x := if b.max_x = b.min_x then b.min_x + 1 else b.max_x,
    max_y := if b.max_y = b.min_y then b.min_y + 1 else b.max_y }

/-- Floor of a rational, written with integer division so that it computes
by kernel reduction. -/
def ratFloor (q : ℚ) : ℤ := q.num / (q.den : ℤ)

/-- Python `int()` applied to a rational: truncation toward zero. -/
def pyInt (q : ℚ) : ℤ := if q < 0 then -(ratFloor (-q)) else ratFloor q

/-- The projector `project_point` (lines 135-154): widen degenerate axes,
normalize each axis to [0,1], map onto the cell ranges (with vertical
inversion), and truncate to integer cells.  No clamping is performed. -/
def project_point (x y : ℚ) (bounds : Bounds) (width height : ℕ) : ℤ × ℤ :=
  let b := widen_bounds bounds
  let nx := (x - b.min_x) / (b.max_x - b.min_x)
  let ny := (y - b.min_y) / (b.max_y - b.min_y)
  (pyInt (nx * ((width : ℚ) - 1)), pyInt ((1 - ny) * ((height : ℚ) - 1)))

/-- The trail mask, modelled as its membership function over integer cells
`(gx, gy)`.  The Python `height × width` boolean grid `trail[gy][gx]` is
only ever indexed after the in-bounds guard, so the two views agree on
every cell the program touches. -/
def Trail : Type := ℤ × ℤ → Bool

/-- The freshly created all-false trail of line 205. -/
def initTrail : Trail := fun _ => false

/-- One frame handed to the render sink (`draw_frame`, lines 161-186):
the trail at draw time, the turtle cursor, and the step label. -/
structure Frame where
  trail : Trail
  cursor : ℤ × ℤ
  step : ℤ

/-- The driver's in-bounds guard of line 215: `0 <= gx < width and
0 <= gy < height`. -/
def inSurface (width height : ℕ) (c : ℤ × ℤ) : Prop :=
  0 ≤ c.1 ∧ c.1 < (width : ℤ) ∧ 0 ≤ c.2 ∧ c.2 < (height : ℤ)

instance (width height : ℕ) (c : ℤ × ℤ) : Decidable (inSurface width height c) := by
  unfold inSurface
  infer_instance

/-- Projection of one state's scaled coordinates, lines 211-213. -/
def cellOf (scale : ℚ) (bounds : Bounds) (width height : ℕ) (s : RawState) : ℤ × ℤ :=
  project_point (coordX s * scale) (coordY s * scale) bounds width height

/-- The step label `state.get("step", idx)` of lines 221 and 230. -/
def resolved_step (s : RawState) (idx : ℤ) : ℤ := s.step.getD idx

/-- The trail write `trail[gy][gx] = True` of line 216: mark cell `p`,
leaving every other cell unchanged. -/
def markCell (p : ℤ × ℤ) (t : Trail) : Trail := fun c => if c = p then true else t c

/-- The playback loop of lines 207-223, carried state made explicit: the
running ordinal `idx`, the trail, and the frames emitted so far.  A state
is skipped when `skip > 1` and its ordinal is not a multiple of `skip`;
otherwise its projected cell is recorded in the trail when in bounds, and
in animated mode a frame is emitted. -/
def runLoop (scale : ℚ) (static_only : Bool) (width height skip : ℕ)
    (bounds : Bounds) :
    ℕ → Trail → List Frame → List RawState → Trail × List Frame
  | _, trail, frames, [] => (trail, frames)
  | idx, trail, frames, state :: rest =>
    if skip > 1 ∧ idx % skip ≠ 0 then
      runLoop scale static_only width height skip bounds (idx + 1) trail frames rest
    else
      let p := cellOf scale bounds width height state
      let trail2 : Trail :=
        if inSurface width height p then markCell p trail else trail
      let frames2 :=
        if static_only then frames
        else frames ++ [{ trail := trail2, cursor := p,
                          step := resolved_step state (idx : ℤ) }]
      runLoop scale static_only width height skip bounds (idx + 1) trail2 frames2 rest

/-- The driver `ascii_run` (lines 189-231), with the surface geometry
`(width, height)` passed directly (the source derives it once from the
terminal size and the configured maxima) and the pacing delay dropped (it
does not affect the data handed to the sink).  Returns the final trail and
the frames rendered.  In static mode the loop emits no frame and a single
final frame shows the last state of the full trace; on the empty trace the
source raises `IndexError` at `states[-1]`, modelled by returning no
frame. -/
def ascii_run (states : List RawState) (scale : ℚ) (static_only : Bool)
    (width height skip : ℕ) : Trail × List Frame :=
  let bounds := compute_bounds states scale
  let res := runLoop scale static_only width height skip bounds 0 initTrail [] states
  if static_only then
    match states.getLast? with
    | none => res
    | some last =>
      (res.1, res.2 ++ [{ trail := res.1,
                          cursor := cellOf scale bounds width height last,
                          step := resolved_step last ((states.length : ℤ) - 1) }])
  else res

/-- The whole invocation `main` (lines 265-276) up to the render sink:
load the document, then run the viewer; a load failure propagates and no
frame is rendered. -/
def run_doc (d : TraceDoc) (scale : ℚ) (static_only : Bool)
    (width height skip : ℕ) : Except String (Trail × List Frame) :=
  (load_trace d).map (fun states => ascii_run states scale static_only width height skip)

/-! Helper lemmas about the embedded definitions. -/

lemma foldl_min_le_init (as : List ℚ) : ∀ a : ℚ, List.foldl min a as ≤ a := by
  induction as with
  | nil => intro a; simp
  | cons b bs ih =>
    intro a
    calc List.foldl min (min a b) bs ≤ min a b := ih (min a b)
      _ ≤ a := min_le_left a b

lemma foldl_min_le_mem (as : List ℚ) :
    ∀ (a x : ℚ), x ∈ as → List.foldl min a as ≤ x := by
  induction as with
  | nil => intro a x hx; cases hx
  | cons b bs ih =>
    intro a x hx
    rcases List.mem_cons.mp hx with h | h
    · subst h
      calc List.foldl min (min a x) bs ≤ min a x := foldl_min_le_init bs (min a x)
        _ ≤ x := min_le_right a x
    · exact ih (min a b) x h

lemma le_foldl_max_init (as : List ℚ) : ∀ a : ℚ, a ≤ List.foldl max a as := by
  induction as with
  | nil => intro a; simp
  | cons b bs ih =>
    intro a
    calc a ≤ max a b := le_max_left a b
      _ ≤ List.foldl max (max a b) bs := ih (max a b)

lemma le_foldl_max_mem (as : List ℚ) :
    ∀ (a x : ℚ), x ∈ as → x ≤ List.foldl max a as := by
  induction as with
  | nil => intro a x hx; cases hx
  | cons b bs ih =>
    intro a x hx
    rcases List.mem_cons.mp hx with h | h
    · subst h
      calc x ≤ max a x := le_max_right a x
        _ ≤ List.foldl max (max a x) bs := le_foldl_max_init bs (max a x)
    · exact ih (max a b) x h

lemma listMin_le {l : List ℚ} {x : ℚ} (hx : x ∈ l) : listMin l ≤ x := by
  cases l with
  | nil => cases hx
  | cons a as =>
    rcases List.mem_cons.mp hx with h | h
    · subst h; exact foldl_min_le_init as x
    · exact foldl_min_le_mem as a x h

lemma le_listMax {l : List ℚ} {x : ℚ} (hx : x ∈ l) : x ≤ listMax l := by
  cases l with
  | nil => cases hx
  | cons a as =>
    rcases List.mem_cons.mp hx with h | h
    · subst h; exact le_foldl_max_init as x
    · exact le_foldl_max_mem as a x h

lemma ratFloor_eq_floor (q : ℚ) : ratFloor q = ⌊q⌋ := Rat.floor_def.symm

lemma pyInt_of_nonneg {q : ℚ} (h : 0 ≤ q) : pyInt q = ⌊q⌋ := by
  unfold pyInt
  rw [if_neg (not_lt.mpr h), ratFloor_eq_floor]

lemma pyInt_zero : pyInt 0 = 0 := by
  rw [pyInt_of_nonneg le_rfl, Int.floor_zero]

lemma pyInt_cast_sub_one (n : ℕ) (hn : 1  ≤ n) : pyInt ((n : ℚ) - 1) = (n : ℤ) - 1 := by
  have h1 : (1 : ℚ) ≤ (n : ℚ) := by exact_mod_cast hn
  have h0 : (0 : ℚ) ≤ (n : ℚ) - 1 := by linarith
  rw [pyInt_of_nonneg h0]
  have hcast : ((n : ℚ) - 1) = (((n : ℤ) - 1 : ℤ) : ℚ) := by push_cast; ring
  rw [hcast, Int.floor_intCast]

lemma pyInt_unit_mul {t : ℚ} {n : ℕ} (hn : 1 ≤ n) (h0 : 0 ≤ t) (h1 : t ≤ 1) :
    0 ≤ pyInt (t * ((n : ℚ) - 1)) ∧ pyInt (t * ((n : ℚ) - 1)) < (n : ℤ) := by
  have hn1 : (0 : ℚ) ≤ (n : ℚ) - 1 := by
    have : (1 : ℚ) ≤ (n : ℚ) := by exact_mod_cast hn
    linarith
  have hv0 : 0 ≤ t * ((n : ℚ) - 1) := mul_nonneg h0 hn1
  have hv1 : t * ((n : ℚ) - 1) ≤ (n : ℚ) - 1 := by nlinarith
  rw [pyInt_of_nonneg hv0]
  refine ⟨Int.floor_nonneg.mpr hv0, ?_⟩
  have hfl : ⌊t * ((n : ℚ) - 1)⌋ ≤ ⌊(n : ℚ) - 1⌋ := Int.floor_le_floor hv1
  have hcast : ((n : ℚ) - 1) = (((n : ℤ) - 1 : ℤ) : ℚ) := by push_cast; ring
  have hfl2 : ⌊(n : ℚ) - 1⌋ = (n : ℤ) - 1 := by rw [hcast]; exact Int.floor_intCast _
  omega

lemma norm_unit {lo hi x : ℚ} (hlo : lo ≤ x) (hhi : x ≤ hi) :
    0 ≤ (x - lo) / ((if hi = lo then lo + 1 else hi) - lo) ∧
      (x - lo) / ((if hi = lo then lo + 1 else hi) - lo) ≤ 1 := by
  by_cases h : hi = lo
  · have hx : x = lo := le_antisymm (h ▸ hhi) hlo
    rw [if_pos h, hx]
    simp
  · have hlt : lo < hi := lt_of_le_of_ne (le_trans hlo hhi) (Ne.symm h)
    rw [if_neg h]
    constructor
    · exact div_nonneg (by linarith) (by linarith)
    · rw [div_le_one (by linarith)]
      linarith

lemma project_point_mem {x y : ℚ} {b : Bounds} {w h : ℕ} (hw : 1 ≤ w) (hh : 1 ≤ h)
    (hx1 : b.min_x ≤ x) (hx2 : x ≤ b.max_x) (hy1 : b.min_y ≤ y) (hy2 : y ≤ b.max_y) :
    inSurface w h (project_point x y b w h) := by
  have hx := norm_unit hx1 hx2
  have hy := norm_unit hy1 hy2
  have hy1' : 0 ≤ 1 - (y - b.min_y) / ((if b.max_y = b.min_y then b.min_y + 1 else b.max_y) - b.min_y) := by
    linarith [hy.2]
  have hy2' : 1 - (y - b.min_y) / ((if b.max_y = b.min_y then b.min_y + 1 else b.max_y) - b.min_y) ≤ 1 := by
    linarith [hy.1]
  have hgx := pyInt_unit_mul hw hx.1 hx.2
  have hgy := pyInt_unit_mul hh hy1' hy2'
  exact ⟨hgx.1, hgx.2, hgy.1, hgy.2⟩

lemma validateStates_ok :
    ∀ (l : List RawState) (idx : ℕ), (∀ s ∈ l, stateOK s = true) →
      validateStates idx l = Except.ok l := by
  intro l
  induction l with
  | nil => intro idx _; rfl
  | cons s rest ih =>
    intro idx hall
    have hs : stateOK s = true := hall s (List.mem_cons_self s rest)
    unfold validateStates
    unfold stateOK at hs
    cases hcoords : s.coords with
    | none => rw [hcoords] at hs; cases hs
    | some coords =>
      rw [hcoords] at hs
      have hlen : ¬ coords.length < 2 := by
        have := of_decide_eq_true hs
        omega
      dsimp only
      rw [if_neg hlen, ih (idx + 1) (fun t ht => hall t (List.mem_cons_of_mem s ht))]
      rfl

lemma validateStates_error :
    ∀ (l : List RawState) (idx : ℕ), (∃ s ∈ l, stateOK s = false) →
      ∃ e, validateStates idx l = Except.error e := by
  intro l
  induction l with
  | nil => intro idx h; rcases h with ⟨s, hs, _⟩; cases hs
  | cons s rest ih =>
    intro idx h
    unfold validateStates
    cases hcoords : s.coords with
    | none => exact ⟨_, rfl⟩
    | some coords =>
      dsimp only
      by_cases hlen : coords.length < 2
      · rw [if_pos hlen]; exact ⟨_, rfl⟩
      · rw [if_neg hlen]
        have hrest : ∃ t ∈ rest, stateOK t = false := by
          rcases h with ⟨t, ht, hbad⟩
          rcases List.mem_cons.mp ht with heq | hmem
          · subst heq
            unfold stateOK at hbad
            rw [hcoords] at hbad
            have : (2 ≤ coords.length) := by omega
            rw [decide_eq_false_iff_not] at hbad
            exact absurd this hbad
          · exact ⟨t, hmem, hbad⟩
        rcases ih (idx + 1) hrest with ⟨e, he⟩
        rw [he]
        exact ⟨e, rfl⟩

lemma reduceTriangles_ok :
    ∀ (l : List RawState) (idx : ℕ), (∀ t ∈ l, triOK t = true) →
      reduceTriangles idx l = Except.ok (deriveAll idx l) := by
  intro l
  induction l with
  | nil => intro idx _; rfl
  | cons tri rest ih =>
    intro idx hall
    have htri : triOK tri = true := hall tri (List.mem_cons_self tri rest)
    unfold reduceTriangles centroidState
    unfold triOK at htri
    cases hcoords : tri.coords with
    | none => rw [hcoords] at htri; cases htri
    | some coords =>
      rw [hcoords] at htri
      have hlen : ¬ coords.length < 6 := by
        have := of_decide_eq_true htri
        omega
      dsimp only
      rw [if_neg hlen, ih (idx + 1) (fun t ht => hall t (List.mem_cons_of_mem tri ht))]
      rfl

lemma reduceTriangles_error :
    ∀ (l : List RawState) (idx : ℕ), (∃ t ∈ l, triOK t = false) →
      ∃ e, reduceTriangles idx l = Except.error e := by
  intro l
  induction l with
  | nil => intro idx h; rcases h with ⟨t, ht, _⟩; cases ht
  | cons tri rest ih =>
    intro idx h
    unfold reduceTriangles centroidState
    cases hcoords : tri.coords with
    | none => exact ⟨_, rfl⟩
    | some coords =>
      dsimp only
      by_cases hlen : coords.length < 6
      · rw [if_pos hlen]; exact ⟨_, rfl⟩
      · rw [if_neg hlen]
        have hrest : ∃ t ∈ rest, triOK t = false := by
          rcases h with ⟨t, ht, hbad⟩
          rcases List.mem_cons.mp ht with heq | hmem
          · subst heq
            unfold triOK at hbad
            rw [hcoords] at hbad
            have : (6 ≤ coords.length) := by omega
            rw [decide_eq_false_iff_not] at hbad
            exact absurd this hbad
          · exact ⟨t, hmem, hbad⟩
        rcases ih (idx + 1) hrest with ⟨e, he⟩
        rw [he]
        exact ⟨e, rfl⟩

lemma deriveAll_length : ∀ (l : List RawState) (idx : ℕ),
    (deriveAll idx l).length = l.length := by
  intro l
  induction l with
  | nil => intro idx; rfl
  | cons tri rest ih =>
    intro idx
    show (deriveAll idx (tri :: rest)).length = rest.length + 1
    unfold deriveAll
    rw [List.length_cons, ih (idx + 1)]

lemma deriveAll_get? : ∀ (l : List RawState) (idx i : ℕ),
    (deriveAll idx l).get? i = (l.get? i).map (fun t => deriveState (idx + i) t) := by
  intro l
  induction l with
  | nil => intro idx i; cases i <;> rfl
  | cons tri rest ih =>
    intro idx i
    cases i with
    | zero => rfl
    | succ j =>
      show (deriveAll (idx + 1) rest).get? j = (rest.get? j).map (fun t => deriveState (idx + (j + 1)) t)
      rw [ih (idx + 1) j]
      have : idx + 1 + j = idx + (j + 1) := by omega
      rw [this]

lemma deriveState_stateOK (idx : ℕ) (t : RawState) : stateOK (deriveState idx t) = true := rfl

lemma runLoop_static_frames (scale : ℚ) (w h k : ℕ) (b : Bounds) :
    ∀ (l : List RawState) (idx : ℕ) (t : Trail) (fs : List Frame),
      (runLoop scale true w h k b idx t fs l).2 = fs := by
  intro l
  induction l with
  | nil => intro idx t fs; rfl
  | cons s rest ih =>
    intro idx t fs
    unfold runLoop
    by_cases hskip : k > 1 ∧ idx % k ≠ 0
    · rw [if_pos hskip]; exact ih _ _ _
    · rw [if_neg hskip]
      exact ih _ _ _

lemma runLoop_trail_monotone (scale : ℚ) (st : Bool) (w h k : ℕ) (b : Bounds) (c : ℤ × ℤ) :
    ∀ (l : List RawState) (idx : ℕ) (t : Trail) (fs : List Frame),
      t c = true → (runLoop scale st w h k b idx t fs l).1 c = true := by
  intro l
  induction l with
  | nil => intro idx t fs hc; exact hc
  | cons s0 rest ih =>
    intro idx t fs hc
    unfold runLoop
    by_cases hskip : k > 1 ∧ idx % k ≠ 0
    · rw [if_pos hskip]; exact ih _ _ _ hc
    · rw [if_neg hskip]
      refine ih _ _ _ ?_
      by_cases hins : inSurface w h (cellOf scale b w h s0)
      · rw [if_pos hins]
        unfold markCell
        by_cases hcp : c = cellOf scale b w h s0
        · rw [if_pos hcp]
        · rw [if_neg hcp]; exact hc
      · rw [if_neg hins]; exact hc

lemma runLoop_trail_mem (scale : ℚ) (st : Bool) (w h k : ℕ) (b : Bounds) (c : ℤ × ℤ) :
    ∀ (l : List RawState) (idx : ℕ) (t : Trail) (fs : List Frame),
      (∀ s ∈ l, inSurface w h (cellOf scale b w h s)) →
      ((runLoop scale st w h k b idx t fs l).1 c = true ↔
        t c = true ∨ ∃ i s, l.get? i = some s ∧ (k ≤ 1 ∨ (idx + i) % k = 0) ∧
          c = cellOf scale b w h s) := by
  intro l
  induction l with
  | nil =>
    intro idx t fs _
    constructor
    · intro hc; exact Or.inl hc
    · rintro (hc | ⟨i, s, hget, _, _⟩)
      · exact hc
      · cases i <;> cases hget
  | cons s0 rest ih =>
    intro idx t fs hall
    have hall' : ∀ s ∈ rest, inSurface w h (cellOf scale b w h s) :=
      fun s hs => hall s (List.mem_cons_of_mem s0 hs)
    unfold runLoop
    by_cases hskip : k > 1 ∧ idx % k ≠ 0
    · rw [if_pos hskip, ih (idx + 1) t fs hall']
      constructor
      · rintro (hc | ⟨i, s, hget, hmod, hcell⟩)
        · exact Or.inl hc
        · refine Or.inr ⟨i + 1, s, hget, ?_, hcell⟩
          rcases hmod with hk1 | hmod
          · exact Or.inl hk1
          · right
            have harith : idx + (i + 1) = idx + 1 + i := by omega
            rw [harith]; exact hmod
      · rintro (hc | ⟨i, s, hget, hmod, hcell⟩)
        · exact Or.inl hc
        · cases i with
          | zero =>
            exfalso
            rcases hmod with hk1 | hmod
            · exact absurd hskip.1 (by omega)
            · exact hskip.2 (by simpa using hmod)
          | succ j =>
            refine Or.inr ⟨j, s, hget, ?_, hcell⟩
            rcases hmod with hk1 | hmod
            · exact Or.inl hk1
            · right
              have harith : idx + 1 + j = idx + (j + 1) := by omega
              rw [harith]; exact hmod
    · rw [if_neg hskip]
      dsimp only
      have hins : inSurface w h (cellOf scale b w h s0) :=
        hall s0 (List.mem_cons_self s0 rest)
      rw [if_pos hins, ih (idx + 1) _ _ hall']
      have hproc : k ≤ 1 ∨ idx % k = 0 := by
        rcases not_and_or.mp hskip with h1 | h2
        · left; omega
        · right; exact not_not.mp h2
      constructor
      · rintro (hc | ⟨i, s, hget, hmod, hcell⟩)
        · by_cases hcp : c = cellOf scale b w h s0
          · exact Or.inr ⟨0, s0, rfl, by simpa using hproc, hcp⟩
          · left
            unfold markCell at hc
            rw [if_neg hcp] at hc
            exact hc
        · refine Or.inr ⟨i + 1, s, hget, ?_, hcell⟩
          rcases hmod with hk1 | hmod
          · exact Or.inl hk1
          · right
            have harith : idx + (i + 1) = idx + 1 + i := by omega
            rw [harith]; exact hmod
      · rintro (hc | ⟨i, s, hget, hmod, hcell⟩)
        · left
          unfold markCell
          by_cases hcp : c = cellOf scale b w h s0
          · rw [if_pos hcp]
          · rw [if_neg hcp]; exact hc
        · cases i with
          | zero =>
            left
            have hs : s = s0 := by
              rw [List.get?_cons_zero] at hget
              exact (Option.some.inj hget).symm
            unfold markCell
            rw [hcell, hs, if_pos rfl]
          | succ j =>
            refine Or.inr ⟨j, s, hget, ?_, hcell⟩
            rcases hmod with hk1 | hmod
            · exact Or.inl hk1
            · right
              have harith : idx + 1 + j = idx + (j + 1) := by omega
              rw [harith]; exact hmod

lemma ascii_run_fst (states : List RawState) (scale : ℚ) (st : Bool) (w h k : ℕ) :
    (ascii_run states scale st w h k).1 =
      (runLoop scale st w h k (compute_bounds states scale) 0 initTrail [] states).1 := by
  unfold ascii_run
  cases st with
  | false => rfl
  | true =>
    cases hl : states.getLast? with
    | none => simp [hl]
    | some last => simp [hl]

lemma deriveAll_all_stateOK :
    ∀ (l : List RawState) (idx : ℕ), ∀ s ∈ deriveAll idx l, stateOK s = true := by
  intro l
  induction l with
  | nil => intro idx s hs; cases hs
  | cons tri rest ih =>
    intro idx s hs
    rcases List.mem_cons.mp hs with h | h
    · subst h; rfl
    · exact ih (idx + 1) s h

lemma listMin_le_listMax {l : List ℚ} (h : l ≠ []) : listMin l ≤ listMax l := by
  cases l with
  | nil => exact absurd rfl h
  | cons a as =>
    exact le_trans (listMin_le (List.mem_cons_self a as))
      (le_listMax (List.mem_cons_self a as))

/-! Claim theorems. -/

/-- C3: for every valid states-shaped document (every record carries a
coords list of length at least 2, and the list is nonempty), `load_trace`
returns the input record list itself, so the output length equals the
input length; and any record lacking a `step` field yields, through the
accessor `state.get("step", idx)` the driver uses, a step equal to its
ordinal position in the resolved sequence. -/
theorem states_load_length_default_steps (l : List RawState)
    (hall : ∀ s ∈ l, stateOK s = true) (hne : l ≠ []) :
    load_trace (TraceDoc.statesDoc l) = Except.ok l ∧
    ∀ i s, l.get? i = some s → s.step = none → resolved_step s (i : ℤ) = (i : ℤ) := by
  constructor
  · have hval := validateStates_ok l 0 hall
    have hemp : l.isEmpty = false := by
      cases l with
      | nil => exact absurd rfl hne
      | cons a as => rfl
    simp [load_trace, resolveShape, hval, hemp, Bind.bind, Except.bind]
  · intro i s _ hstep
    unfold resolved_step
    rw [hstep]
    rfl

/-- C3 witness: a concrete two-record states document. -/
theorem states_load_length_default_steps_witness :
    (∀ s ∈ [RawState.mk none (some [0, 0]), RawState.mk (some 7) (some [10, 10])],
      stateOK s = true) ∧
    ([RawState.mk none (some [0, 0]), RawState.mk (some 7) (some [10, 10])] ≠ []) ∧
    (load_trace (TraceDoc.statesDoc
        [RawState.mk none (some [0, 0]), RawState.mk (some 7) (some [10, 10])]) =
      Except.ok [RawState.mk none (some [0, 0]), RawState.mk (some 7) (some [10, 10])] ∧
    ∀ i s, [RawState.mk none (some [0, 0]), RawState.mk (some 7) (some [10, 10])].get? i = some s →
      s.step = none → resolved_step s (i : ℤ) = (i : ℤ)) :=
  ⟨by decide, List.cons_ne_nil _ _,
    states_load_length_default_steps _ (by decide) (List.cons_ne_nil _ _)⟩

/-- C2 (amended to nonempty documents): for every nonempty triangles-shaped
document whose records all carry at least six coordinate values,
`load_trace` returns exactly one derived state per record; the i-th output
has coords equal to the centroid of the first six coordinate values of
record i and step equal to the record's step field when present, else i. -/
theorem triangles_load_centroids (l : List RawState)
    (hall : ∀ t ∈ l, triOK t = true) (hne : l ≠ []) :
    ∃ out, load_trace (TraceDoc.trianglesDoc l) = Except.ok out ∧
      out.length = l.length ∧
      ∀ i t, l.get? i = some t →
        out.get? i = some
          { step := some (t.step.getD (i : ℤ)),
            coords := some
              [((t.coords.getD []).getD 0 0 + (t.coords.getD []).getD 2 0 +
                  (t.coords.getD []).getD 4 0) / 3,
               ((t.coords.getD []).getD 1 0 + (t.coords.getD []).getD 3 0 +
                  (t.coords.getD []).getD 5 0) / 3] } := by
  have hred := reduceTriangles_ok l 0 hall
  have hvalid := deriveAll_all_stateOK l 0
  have hlen := deriveAll_length l 0
  have hemp : (deriveAll 0 l).isEmpty = false := by
    rcases l with _ | ⟨a, as⟩
    · exact absurd rfl hne
    · rfl
  refine ⟨deriveAll 0 l, ?_, hlen, ?_⟩
  · simp [load_trace, resolveShape, hred, validateStates_ok _ _ hvalid, hemp,
      Bind.bind, Except.bind]
  · intro i t hget
    have hmap := deriveAll_get? l 0 i
    rw [hget] at hmap
    rw [hmap]
    simp only [Option.map_some']
    rw [Nat.zero_add]
    rfl

/-- C2 counterexample: the claim as stated quantifies over every
triangles-shaped document, including the empty one, but on zero records
`load_trace` fails with the empty-trace error instead of returning zero
derived states. -/
theorem triangles_load_empty_fails :
    load_trace (TraceDoc.trianglesDoc []) =
      Except.error "Trace produced no usable states." := rfl

/-- C2 witness: one concrete triangle record with an explicit step. -/
theorem triangles_load_centroids_witness :
    (∀ t ∈ [RawState.mk (some 5) (some [0, 0, 3, 0, 0, 3])], triOK t = true) ∧
    ([RawState.mk (some 5) (some [0, 0, 3, 0, 0, 3])] ≠ []) ∧
    (∃ out, load_trace (TraceDoc.trianglesDoc
        [RawState.mk (some 5) (some [0, 0, 3, 0, 0, 3])]) = Except.ok out ∧
      out.length = [RawState.mk (some 5) (some [0, 0, 3, 0, 0, 3])].length ∧
      ∀ i t, [RawState.mk (some 5) (some [0, 0, 3, 0, 0, 3])].get? i = some t →
        out.get? i = some
          { step := some (t.step.getD (i : ℤ)),
            coords := some
              [((t.coords.getD []).getD 0 0 + (t.coords.getD []).getD 2 0 +
                  (t.coords.getD []).getD 4 0) / 3,
               ((t.coords.getD []).getD 1 0 + (t.coords.getD []).getD 3 0 +
                  (t.coords.getD []).getD 5 0) / 3] }) :=
  ⟨by decide, List.cons_ne_nil _ _,
    triangles_load_centroids _ (by decide) (List.cons_ne_nil _ _)⟩

/-- C7: the loader rejects every malformed document - an unrecognized
shape, a record missing `coords`, a coords list shorter than required
(2 for state records, 6 for triangle records; both captured by the
decidable checks `stateOK` and `triOK`), or an empty resolved sequence -
with an error, and the whole invocation then produces zero frames. -/
theorem loader_rejects_invalid (d : TraceDoc)
    (hbad :
      d = TraceDoc.otherDoc ∨
      (∃ l, (d = TraceDoc.statesDoc l ∨ d = TraceDoc.listDoc l) ∧
        ∃ s ∈ l, stateOK s = false) ∨
      (∃ l, d = TraceDoc.trianglesDoc l ∧ ∃ t ∈ l, triOK t = false) ∨
      d = TraceDoc.statesDoc [] ∨ d = TraceDoc.trianglesDoc [] ∨
      d = TraceDoc.listDoc []) :
    (∃ e, load_trace d = Except.error e) ∧
    ∀ (scale : ℚ) (st : Bool) (w h k : ℕ),
      ∃ e, run_doc d scale st w h k = Except.error e := by
  have hload : ∃ e, load_trace d = Except.error e := by
    rcases hbad with h | ⟨l, hshape, hbadrec⟩ | ⟨l, hshape, hbadrec⟩ | h | h | h
    · subst h; exact ⟨_, rfl⟩
    · rcases validateStates_error l 0 hbadrec with ⟨e, he⟩
      rcases hshape with h | h <;> subst h <;>
        exact ⟨e, by simp [load_trace, resolveShape, he, Bind.bind, Except.bind]⟩
    · rcases reduceTriangles_error l 0 hbadrec with ⟨e, he⟩
      subst hshape
      exact ⟨e, by simp [load_trace, resolveShape, he, Bind.bind, Except.bind]⟩
    · subst h; exact ⟨_, rfl⟩
    · subst h; exact ⟨_, rfl⟩
    · subst h; exact ⟨_, rfl⟩
  refine ⟨hload, ?_⟩
  intro scale st w h k
  rcases hload with ⟨e, he⟩
  exact ⟨e, by simp [run_doc, he, Except.map]⟩

/-- C7 witness: the spec's own malformed example, a triangle record whose
coords list has only 3 values. -/
theorem loader_rejects_invalid_witness :
    (∃ e, load_trace (TraceDoc.trianglesDoc [RawState.mk none (some [0, 0, 1])]) =
      Except.error e) ∧
    ∀ (scale : ℚ) (st : Bool) (w h k : ℕ),
      ∃ e, run_doc (TraceDoc.trianglesDoc [RawState.mk none (some [0, 0, 1])])
        scale st w h k = Except.error e :=
  loader_rejects_invalid _
    (Or.inr (Or.inr (Or.inl ⟨_, rfl, ⟨_, List.mem_cons_self _ _, rfl⟩⟩)))

lemma cellOf_in_surface (states : List RawState) (scale : ℚ) (w h : ℕ)
    (hw : 1 ≤ w) (hh : 1 ≤ h) (s : RawState) (hs : s ∈ states) :
    inSurface w h (cellOf scale (compute_bounds states scale) w h s) := by
  unfold cellOf
  apply project_point_mem hw hh
  · exact listMin_le (List.mem_map_of_mem _ hs)
  · exact le_listMax (List.mem_map_of_mem _ hs)
  · exact listMin_le (List.mem_map_of_mem _ hs)
  · exact le_listMax (List.mem_map_of_mem _ hs)

/-- C9: projecting any state of a trace against the bounds computed from
that same trace (same scale) lands inside the surface whenever the surface
has at least one column and one row, so the driver's in-bounds guard of
line 215 (exactly the predicate `inSurface`) always succeeds and no
projected state is dropped by it. -/
theorem projection_in_surface (states : List RawState) (scale : ℚ) (w h : ℕ)
    (hw : 1 ≤ w) (hh : 1 ≤ h) (s : RawState) (hs : s ∈ states) :
    inSurface w h (cellOf scale (compute_bounds states scale) w h s) :=
  cellOf_in_surface states scale w h hw hh s hs

/-- C9 witness: a concrete two-state trace on a 10 by 10 surface. -/
theorem projection_in_surface_witness :
    (1 ≤ 10) ∧ (1 ≤ 10) ∧
    (RawState.mk none (some [0, 0]) ∈
      [RawState.mk none (some [0, 0]), RawState.mk none (some [10, 10])]) ∧
    inSurface 10 10
      (cellOf 1
        (compute_bounds
          [RawState.mk none (some [0, 0]), RawState.mk none (some [10, 10])] 1)
        10 10 (RawState.mk none (some [0, 0]))) :=
  ⟨by decide, by decide, List.mem_cons_self _ _,
    projection_in_surface _ 1 10 10 (by decide) (by decide) _
      (List.mem_cons_self _ _)⟩

/-- C4: for a nonempty trace the effective world bounds - the min/max per
axis computed by `compute_bounds`, corrected by the degenerate-axis
widening the projector applies - are strictly ordered on both axes; the
mins are the per-axis minima of the scaled coordinates, and the max is the
per-axis maximum, widened by exactly 1 precisely when the axis is
degenerate. -/
theorem widened_bounds_strict (states : List RawState) (scale : ℚ)
    (hne : states ≠ []) :
    (widen_bounds (compute_bounds states scale)).min_x <
        (widen_bounds (compute_bounds states scale)).max_x ∧
    (widen_bounds (compute_bounds states scale)).min_y <
        (widen_bounds (compute_bounds states scale)).max_y ∧
    (widen_bounds (compute_bounds states scale)).min_x =
        listMin (scaledXs states scale) ∧
    (widen_bounds (compute_bounds states scale)).min_y =
        listMin (scaledYs states scale) ∧
    (listMax (scaledXs states scale) = listMin (scaledXs states scale) →
      (widen_bounds (compute_bounds states scale)).max_x =
        listMin (scaledXs states scale) + 1) ∧
    (listMax (scaledXs states scale) ≠ listMin (scaledXs states scale) →
      (widen_bounds (compute_bounds states scale)).max_x =
        listMax (scaledXs states scale)) ∧
    (listMax (scaledYs states scale) = listMin (scaledYs states scale) →
      (widen_bounds (compute_bounds states scale)).max_y =
        listMin (scaledYs states scale) + 1) ∧
    (listMax (scaledYs states scale) ≠ listMin (scaledYs states scale) →
      (widen_bounds (compute_bounds states scale)).max_y =
        listMax (scaledYs states scale)) := by
  have hxs : scaledXs states scale ≠ [] := by
    rcases states with _ | ⟨a, as⟩
    · exact absurd rfl hne
    · exact List.cons_ne_nil _ _
  have hys : scaledYs states scale ≠ [] := by
    rcases states with _ | ⟨a, as⟩
    · exact absurd rfl hne
    · exact List.cons_ne_nil _ _
  have hx := listMin_le_listMax hxs
  have hy := listMin_le_listMax hys
  unfold widen_bounds compute_bounds
  dsimp only
  refine ⟨?_, ?_, rfl, rfl, ?_, ?_, ?_, ?_⟩
  · by_cases hq : listMax (scaledXs states scale) = listMin (scaledXs states scale)
    · rw [if_pos hq]; exact lt_add_one _
    · rw [if_neg hq]; exact lt_of_le_of_ne hx (Ne.symm hq)
  · by_cases hq : listMax (scaledYs states scale) = listMin (scaledYs states scale)
    · rw [if_pos hq]; exact lt_add_one _
    · rw [if_neg hq]; exact lt_of_le_of_ne hy (Ne.symm hq)
  · intro hq; rw [if_pos hq]
  · intro hq; rw [if_neg hq]
  · intro hq; rw [if_pos hq]
  · intro hq; rw [if_neg hq]

/-- C4 witness: a concrete two-state trace with scale 2. -/
theorem widened_bounds_strict_witness :
    ([RawState.mk none (some [0, 0]), RawState.mk none (some [10, 10])] ≠ []) ∧
    ((widen_bounds (compute_bounds
        [RawState.mk none (some [0, 0]), RawState.mk none (some [10, 10])] 2)).min_x <
        (widen_bounds (compute_bounds
          [RawState.mk none (some [0, 0]), RawState.mk none (some [10, 10])] 2)).max_x ∧
      (widen_bounds (compute_bounds
        [RawState.mk none (some [0, 0]), RawState.mk none (some [10, 10])] 2)).min_y <
        (widen_bounds (compute_bounds
          [RawState.mk none (some [0, 0]), RawState.mk none (some [10, 10])] 2)).max_y ∧
      (widen_bounds (compute_bounds
        [RawState.mk none (some [0, 0]), RawState.mk none (some [10, 10])] 2)).min_x =
        listMin (scaledXs
          [RawState.mk none (some [0, 0]), RawState.mk none (some [10, 10])] 2) ∧
      (widen_bounds (compute_bounds
        [RawState.mk none (some [0, 0]), RawState.mk none (some [10, 10])] 2)).min_y =
        listMin (scaledYs
          [RawState.mk none (some [0, 0]), RawState.mk none (some [10, 10])] 2) ∧
      (listMax (scaledXs
          [RawState.mk none (some [0, 0]), RawState.mk none (some [10, 10])] 2) =
          listMin (scaledXs
            [RawState.mk none (some [0, 0]), RawState.mk none (some [10, 10])] 2) →
        (widen_bounds (compute_bounds
          [RawState.mk none (some [0, 0]), RawState.mk none (some [10, 10])] 2)).max_x =
          listMin (scaledXs
            [RawState.mk none (some [0, 0]), RawState.mk none (some [10, 10])] 2) + 1) ∧
      (listMax (scaledXs
          [RawState.mk none (some [0, 0]), RawState.mk none (some [10, 10])] 2) ≠
          listMin (scaledXs
            [RawState.mk none (some [0, 0]), RawState.mk none (some [10, 10])] 2) →
        (widen_bounds (compute_bounds
          [RawState.mk none (some [0, 0]), RawState.mk none (some [10, 10])] 2)).max_x =
          listMax (scaledXs
            [RawState.mk none (some [0, 0]), RawState.mk none (some [10, 10])] 2)) ∧
      (listMax (scaledYs
          [RawState.mk none (some [0, 0]), RawState.mk none (some [10, 10])] 2) =
          listMin (scaledYs
            [RawState.mk none (some [0, 0]), RawState.mk none (some [10, 10])] 2) →
        (widen_bounds (compute_bounds
          [RawState.mk none (some [0, 0]), RawState.mk none (some [10, 10])] 2)).max_y =
          listMin (scaledYs
            [RawState.mk none (some [0, 0]), RawState.mk none (some [10, 10])] 2) + 1) ∧
      (listMax (scaledYs
          [RawState.mk none (some [0, 0]), RawState.mk none (some [10, 10])] 2) ≠
          listMin (scaledYs
            [RawState.mk none (some [0, 0]), RawState.mk none (some [10, 10])] 2) →
        (widen_bounds (compute_bounds
          [RawState.mk none (some [0, 0]), RawState.mk none (some [10, 10])] 2)).max_y =
          listMax (scaledYs
            [RawState.mk none (some [0, 0]), RawState.mk none (some [10, 10])] 2))) :=
  ⟨List.cons_ne_nil _ _, widened_bounds_strict _ 2 (List.cons_ne_nil _ _)⟩

/-- C5: with strictly ordered bounds and a surface of at least one column
and one row, projecting a point at `min_x` gives column 0, at `max_x`
column `width - 1`, at `max_y` row 0, and at `min_y` row `height - 1`
(vertical inversion), by pure arithmetic with no clamping. -/
theorem projector_corner_cells (b : Bounds) (w h : ℕ) (x y : ℚ)
    (hx : b.min_x < b.max_x) (hy : b.min_y < b.max_y) (hw : 1 ≤ w) (hh : 1 ≤ h) :
    (project_point b.min_x y b w h).1 = 0 ∧
    (project_point b.max_x y b w h).1 = (w : ℤ) - 1 ∧
    (project_point x b.max_y b w h).2 = 0 ∧
    (project_point x b.min_y b w h).2 = (h : ℤ) - 1 := by
  have hnex : b.max_x ≠ b.min_x := ne_of_gt hx
  have hney : b.max_y ≠ b.min_y := ne_of_gt hy
  have hdx : b.max_x - b.min_x ≠ 0 := sub_ne_zero.mpr hnex
  have hdy : b.max_y - b.min_y ≠ 0 := sub_ne_zero.mpr hney
  refine ⟨?_, ?_, ?_, ?_⟩
  · unfold project_point widen_bounds
    dsimp only
    rw [if_neg hnex, sub_self, zero_div, zero_mul, pyInt_zero]
  · unfold project_point widen_bounds
    dsimp only
    rw [if_neg hnex, div_self hdx, one_mul, pyInt_cast_sub_one w hw]
  · unfold project_point widen_bounds
    dsimp only
    rw [if_neg hney, div_self hdy, sub_self, zero_mul, pyInt_zero]
  · unfold project_point widen_bounds
    dsimp only
    rw [if_neg hney, sub_self, zero_div, sub_zero, one_mul,
      pyInt_cast_sub_one h hh]

/-- C5 witness: bounds (0,10) on both axes, a 10 by 10 surface, and an
arbitrary interior point (3,4). -/
theorem projector_corner_cells_witness :
    ((Bounds.mk 0 10 0 10).min_x < (Bounds.mk 0 10 0 10).max_x) ∧
    ((Bounds.mk 0 10 0 10).min_y < (Bounds.mk 0 10 0 10).max_y) ∧
    (1 ≤ 10) ∧ (1 ≤ 10) ∧
    ((project_point (Bounds.mk 0 10 0 10).min_x 4 (Bounds.mk 0 10 0 10) 10 10).1 = 0 ∧
     (project_point (Bounds.mk 0 10 0 10).max_x 4 (Bounds.mk 0 10 0 10) 10 10).1 = (10 : ℤ) - 1 ∧
     (project_point 3 (Bounds.mk 0 10 0 10).max_y (Bounds.mk 0 10 0 10) 10 10).2 = 0 ∧
     (project_point 3 (Bounds.mk 0 10 0 10).min_y (Bounds.mk 0 10 0 10) 10 10).2 = (10 : ℤ) - 1) :=
  ⟨by decide, by decide, by decide, by decide,
    projector_corner_cells (Bounds.mk 0 10 0 10) 10 10 3 4
      (by decide) (by decide) (by decide) (by decide)⟩

/-- C8: on a single-state trace the widened bounds have span exactly 1 on
each axis, so the divisions inside the projector are never by zero
(`compute_bounds` itself performs no division at all), and the projected
cell is deterministic with the non-inverted horizontal axis mapping to
column 0. -/
theorem single_state_projection_safe (s : RawState) (scale : ℚ) (w h : ℕ) :
    (widen_bounds (compute_bounds [s] scale)).max_x -
        (widen_bounds (compute_bounds [s] scale)).min_x ≠ 0 ∧
    (widen_bounds (compute_bounds [s] scale)).max_y -
        (widen_bounds (compute_bounds [s] scale)).min_y ≠ 0 ∧
    (project_point (coordX s * scale) (coordY s * scale)
        (compute_bounds [s] scale) w h).1 = 0 := by
  refine ⟨?_, ?_, ?_⟩
  · show (widen_bounds (Bounds.mk (coordX s * scale) (coordX s * scale)
        (coordY s * scale) (coordY s * scale))).max_x -
      (widen_bounds (Bounds.mk (coordX s * scale) (coordX s * scale)
        (coordY s * scale) (coordY s * scale))).min_x ≠ 0
    unfold widen_bounds
    dsimp only
    rw [if_pos rfl, add_sub_cancel_left]
    exact one_ne_zero
  · show (widen_bounds (Bounds.mk (coordX s * scale) (coordX s * scale)
        (coordY s * scale) (coordY s * scale))).max_y -
      (widen_bounds (Bounds.mk (coordX s * scale) (coordX s * scale)
        (coordY s * scale) (coordY s * scale))).min_y ≠ 0
    unfold widen_bounds
    dsimp only
    rw [if_pos rfl, add_sub_cancel_left]
    exact one_ne_zero
  · have hb : compute_bounds [s] scale =
        Bounds.mk (coordX s * scale) (coordX s * scale) (coordY s * scale)
          (coordY s * scale) := rfl
    unfold project_point widen_bounds
    dsimp only
    rw [hb]
    dsimp only
    rw [sub_self, zero_div, zero_mul, pyInt_zero]

/-- C1: in static-only mode exactly one frame is handed to the render
sink, and its cursor is the projection of the last state of the full
(unskipped) trace, whatever the stride. -/
theorem static_mode_single_frame (states : List RawState) (scale : ℚ)
    (w h k : ℕ) (hne : states ≠ []) :
    ((ascii_run states scale true w h k).2).length = 1 ∧
    ∀ f ∈ (ascii_run states scale true w h k).2,
      some f.cursor = states.getLast?.map
        (cellOf scale (compute_bounds states scale) w h) := by
  have hlast := List.getLast?_eq_getLast states hne
  have hframes := runLoop_static_frames scale w h k (compute_bounds states scale)
    states 0 initTrail []
  have hrun : (ascii_run states scale true w h k).2 =
      [{ trail := (runLoop scale true w h k (compute_bounds states scale)
            0 initTrail [] states).1,
         cursor := cellOf scale (compute_bounds states scale) w h
            (states.getLast hne),
         step := resolved_step (states.getLast hne)
            ((states.length : ℤ) - 1) }] := by
    unfold ascii_run
    rw [hlast]
    dsimp only
    rw [hframes, if_pos rfl]
    rfl
  constructor
  · rw [hrun]; rfl
  · intro f hf
    rw [hrun, List.mem_singleton] at hf
    subst hf
    rw [hlast]
    rfl

/-- C1 witness: a two-state trace with a stride that excludes the last
state from the sampled pass. -/
theorem static_mode_single_frame_witness :
    ([RawState.mk none (some [0, 0]), RawState.mk (some 9) (some [5, 5])] ≠ []) ∧
    (((ascii_run [RawState.mk none (some [0, 0]),
        RawState.mk (some 9) (some [5, 5])] 1 true 10 10 4).2).length = 1 ∧
      ∀ f ∈ (ascii_run [RawState.mk none (some [0, 0]),
          RawState.mk (some 9) (some [5, 5])] 1 true 10 10 4).2,
        some f.cursor =
          ([RawState.mk none (some [0, 0]),
            RawState.mk (some 9) (some [5, 5])].getLast?).map
            (cellOf 1 (compute_bounds [RawState.mk none (some [0, 0]),
              RawState.mk (some 9) (some [5, 5])] 1) 10 10)) :=
  ⟨List.cons_ne_nil _ _,
    static_mode_single_frame _ 1 10 10 4 (List.cons_ne_nil _ _)⟩

/-- C6: with a stride `k > 1` and a surface of at least one column and one
row, the cells marked in the trail by the end of a run are exactly the
projected cells of the states at ordinal indices 0, k, 2k, ...; skipped
states contribute nothing, and this holds in static mode too, whose final
render writes no trail mark. -/
theorem trail_cells_sampled (states : List RawState) (scale : ℚ) (st : Bool)
    (w h k : ℕ) (hk : 1 < k) (hw : 1 ≤ w) (hh : 1 ≤ h) (c : ℤ × ℤ) :
    ((ascii_run states scale st w h k).1 c = true ↔
      ∃ i s, states.get? i = some s ∧ i % k = 0 ∧
        c = cellOf scale (compute_bounds states scale) w h s) := by
  rw [ascii_run_fst]
  rw [runLoop_trail_mem scale st w h k (compute_bounds states scale) c states
      0 initTrail []
      (fun s hs => cellOf_in_surface states scale w h hw hh s hs)]
  constructor
  · rintro (hfalse | ⟨i, s, hget, hmod, hcell⟩)
    · exact absurd hfalse (by simp [initTrail])
    · refine ⟨i, s, hget, ?_, hcell⟩
      rcases hmod with hk1 | hmod
      · omega
      · simpa using hmod
  · rintro ⟨i, s, hget, hmod, hcell⟩
    exact Or.inr ⟨i, s, hget, Or.inr (by simpa using hmod), hcell⟩

/-- C6 witness: a two-state trace with stride 2 in animated mode, queried
at the origin cell. -/
theorem trail_cells_sampled_witness :
    (1 < 2) ∧ (1 ≤ 10) ∧ (1 ≤ 10) ∧
    ((ascii_run [RawState.mk none (some [0, 0]),
        RawState.mk none (some [10, 10])] 1 false 10 10 2).1 (0, 0) = true ↔
      ∃ i s, [RawState.mk none (some [0, 0]),
          RawState.mk none (some [10, 10])].get? i = some s ∧ i % 2 = 0 ∧
        (0, 0) = cellOf 1 (compute_bounds [RawState.mk none (some [0, 0]),
          RawState.mk none (some [10, 10])] 1) 10 10 s) :=
  ⟨by decide, by decide, by decide,
    trail_cells_sampled _ 1 false 10 10 2 (by decide) (by decide) (by decide)
      (0, 0)⟩

/-- C10: the trail starts all false, the only write operation (the cell
marking of line 216) never turns a true cell false, and consequently no
step of the playback loop, from any intermediate trail, resets a marked
cell. -/
theorem trail_never_reset (scale : ℚ) (st : Bool) (w h k : ℕ) (b : Bounds)
    (idx : ℕ) (t : Trail) (fs : List Frame) (l : List RawState)
    (p c : ℤ × ℤ) (hc : t c = true) :
    initTrail c = false ∧ markCell p t c = true ∧
    (runLoop scale st w h k b idx t fs l).1 c = true := by
  refine ⟨rfl, ?_, runLoop_trail_monotone scale st w h k b c l idx t fs hc⟩
  unfold markCell
  by_cases hcp : c = p
  · rw [if_pos hcp]
  · rw [if_neg hcp]; exact hc

/-- C10 witness: an everywhere-true starting trail on a short run. -/
theorem trail_never_reset_witness :
    ((fun _ => true : Trail) ((1 : ℤ), (1 : ℤ)) = true) ∧
    (initTrail ((1 : ℤ), (1 : ℤ)) = false ∧
      markCell ((0 : ℤ), (0 : ℤ)) (fun _ => true) ((1 : ℤ), (1 : ℤ)) = true ∧
      (runLoop 1 false 3 3 1 (Bounds.mk 0 1 0 1) 0 (fun _ => true) []
        [RawState.mk none (some [0, 0])]).1 ((1 : ℤ), (1 : ℤ)) = true) :=
  ⟨rfl, trail_never_reset 1 false 3 3 1 (Bounds.mk 0 1 0 1) 0 (fun _ => true)
    [] [RawState.mk none (some [0, 0])] ((0 : ℤ), (0 : ℤ))
    ((1 : ℤ), (1 : ℤ)) rfl⟩

end EuMechTurtle
